import Mathlib

/-!
Verification of the Diane's Arcade progression and achievement-unlock engine
against its design specification.

The repository ships the browser client (`src/server.js`, the `DianeArcade`
class); the backend progression engine, achievement evaluator and leaderboard
ranker that the client calls over HTTP are part of the repository but not in
`src/`.  Those components are therefore modelled from the specification
(definitions marked "Modelled from the spec"), while the client-side
behaviour (`saveGameScore`, `handleRegister`) is embedded directly from
`src/server.js`.
-/

/-! ## Data model (spec §3) -/

/-- Modelled from the spec: a User row — identity, `level` (≥ 1), `xp` (≥ 0),
`prestige` (≥ 0), `total_games_played` (≥ 0), plus the creation order used as
the leaderboard tie-break. -/
structure User where
  uid : Nat
  level : Nat
  xp : Nat
  prestige : Nat
  totalGamesPlayed : Nat
  createdOrder : Nat
deriving Repr, DecidableEq

/-- Modelled from the spec: an immutable ScoreEvent row
(user id, game identifier, score value which may be ≤ 0). -/
structure ScoreEvent where
  userId : Nat
  gameName : String
  scoreValue : Int
deriving Repr, DecidableEq

/-- Modelled from the spec: the unlock-predicate shapes of §4.2
(FirstGame, GamesPlayedMilestone, LevelReached, ScoreThreshold,
WinCountMilestone). -/
inductive AchKind where
  | firstGame
  | gamesPlayedMilestone (n : Nat)
  | levelReached (n : Nat)
  | scoreThreshold (v : Int)
  | winCountMilestone (n : Nat)
deriving Repr, DecidableEq

/-- Modelled from the spec: an AchievementDefinition catalog entry
(id, xp_reward, unlock predicate); fixed at process start. -/
structure AchievementDefinition where
  aid : Nat
  xpReward : Nat
  kind : AchKind
deriving Repr, DecidableEq

/-- Modelled from the spec: an UnlockRecord (user id, achievement id). -/
structure UnlockRecord where
  userId : Nat
  achievementId : Nat
deriving Repr, DecidableEq

/-- Modelled from the spec: the persisted state the core reads and writes —
Users, append-only ScoreEvents, UnlockRecords. -/
structure ArcadeState where
  users : List User
  events : List ScoreEvent
  unlocks : List UnlockRecord
deriving Repr, DecidableEq

/-- Modelled from the spec: the read-only configuration — XP level
breakpoints (progression curve) and the achievement catalog. -/
structure Config where
  breakpoints : List Nat
  catalog : List AchievementDefinition
deriving Repr, DecidableEq

/-- Modelled from the spec: the error taxonomy of §7. -/
inductive ArcadeError where
  | unknownUser
  | invalidInput
  | persistenceUnavailable
deriving Repr, DecidableEq

/-- Modelled from the spec (§7): which errors are retryable —
only `persistenceUnavailable` is. -/
def retryable : ArcadeError → Bool
  | .persistenceUnavailable => true
  | _ => false

/-! ## Progression engine primitives (spec §4.1) -/

/-- Modelled from the spec: `levelFor(xp)` — a monotonically non-decreasing
step function over the configured XP breakpoints: level 1 plus the number of
breakpoints already reached. -/
def levelFor (bps : List Nat) (xp : Nat) : Nat :=
  1 + (bps.filter (fun b => b ≤ xp)).length

/-- Look a user up by id (persistence `getUser`). -/
def findUser (users : List User) (uid : Nat) : Option User :=
  users.find? (fun v => v.uid == uid)

/-- Write back an updated user row, keyed by user id. -/
def setUser (users : List User) (u : User) : List User :=
  users.map (fun v => if v.uid == u.uid then u else v)

/-- Count of positive-score events ("wins") for a user. -/
def winCount (events : List ScoreEvent) (uid : Nat) : Nat :=
  (events.filter (fun e => e.userId == uid && decide (0 < e.scoreValue))).length

/-- Whether an unlock record for the pair already exists. -/
def hasUnlock (unl : List UnlockRecord) (uid aid : Nat) : Bool :=
  unl.any (fun r => r.userId == uid && r.achievementId == aid)

/-- Number of unlock records for a (user, achievement) pair. -/
def countUnl (unl : List UnlockRecord) (uid aid : Nat) : Nat :=
  unl.countP (fun r => r.userId == uid && r.achievementId == aid)

/-! ## Achievement evaluator (spec §4.2) -/

/-- Modelled from the spec (§4.2, design note): an achievement predicate
qualifies when the current value has reached or passed the milestone —
threshold semantics, not exact equality. -/
def qualifies (events : List ScoreEvent) (u : User) : AchKind → Bool
  | .firstGame => decide (1 ≤ u.totalGamesPlayed)
  | .gamesPlayedMilestone n => decide (n ≤ u.totalGamesPlayed)
  | .levelReached n => decide (n ≤ u.level)
  | .scoreThreshold v => events.any (fun e => e.userId == u.uid && decide (v ≤ e.scoreValue))
  | .winCountMilestone n => decide (n ≤ winCount events u.uid)

/-- Modelled from the spec: one attempt at one catalog entry — if the
predicate qualifies and no UnlockRecord exists yet, create the record, add
`xp_reward` to the user's XP and refresh `level = levelFor xp`; otherwise a
no-op.  The accumulator carries (user, unlock records, newly unlocked). -/
def evalStep (cfg : Config) (events : List ScoreEvent)
    (acc : User × List UnlockRecord × List AchievementDefinition)
    (a : AchievementDefinition) :
    User × List UnlockRecord × List AchievementDefinition :=
  if qualifies events acc.1 a.kind && !hasUnlock acc.2.1 acc.1.uid a.aid then
    ({ acc.1 with
        xp := acc.1.xp + a.xpReward,
        level := levelFor cfg.breakpoints (acc.1.xp + a.xpReward) },
      acc.2.1 ++ [⟨acc.1.uid, a.aid⟩], acc.2.2 ++ [a])
  else acc

/-- Modelled from the spec: one pass of the evaluator over the whole
catalog. -/
def evalPass (cfg : Config) (events : List ScoreEvent) (u : User)
    (unl : List UnlockRecord) :
    User × List UnlockRecord × List AchievementDefinition :=
  cfg.catalog.foldl (evalStep cfg events) (u, unl, [])

/-- Modelled from the spec (§4.2, design note in §9): the cascade of
re-evaluation on level-up, run as a work loop to a fixed point; the fuel
bounds the number of productive passes (each unlocks at least one
achievement, and the catalog is finite). -/
def evalLoop (cfg : Config) (events : List ScoreEvent) :
    Nat → User → List UnlockRecord →
    User × List UnlockRecord × List AchievementDefinition
  | 0, u, unl => (u, unl, [])
  | fuel + 1, u, unl =>
    let t := evalPass cfg events u unl
    if t.2.2.isEmpty then (t.1, t.2.1, [])
    else
      let s := evalLoop cfg events fuel t.1 t.2.1
      (s.1, s.2.1, t.2.2 ++ s.2.2)

/-- Modelled from the spec: the Achievement Evaluator entry point — evaluate
all catalog entries against the user's current stats to a fixed point.
Catalog length + 1 passes always suffice. -/
def evaluate (cfg : Config) (events : List ScoreEvent) (u : User)
    (unl : List UnlockRecord) :
    User × List UnlockRecord × List AchievementDefinition :=
  evalLoop cfg events (cfg.catalog.length + 1) u unl

/-! ## Score submission (spec §4.1, §6) -/

/-- Result of a successful score submission: the new state, the updated
stats and the newly unlocked achievements. -/
structure SubmitResult where
  state : ArcadeState
  stats : User
  newlyUnlocked : List AchievementDefinition
deriving Repr, DecidableEq

/-- Modelled from the spec (§4.1): `recordScore(userId, gameName, scoreValue)`
— fails with UnknownUser when the user does not exist, InvalidInput when the
game name is empty; otherwise appends the ScoreEvent, increments
`total_games_played` by 1 unconditionally (no clamping of the score value)
and runs the Achievement Evaluator on the updated stats. -/
def recordScore (cfg : Config) (st : ArcadeState) (uid : Nat)
    (gameName : String) (score : Int) : Except ArcadeError SubmitResult :=
  match findUser st.users uid with
  | none => .error .unknownUser
  | some u =>
    if gameName = "" then .error .invalidInput
    else
      let events := st.events ++ [⟨uid, gameName, score⟩]
      let u1 : User := { u with totalGamesPlayed := u.totalGamesPlayed + 1 }
      let t := evaluate cfg events u1 st.unlocks
      .ok ⟨⟨setUser st.users t.1, events, t.2.1⟩, t.1, t.2.2⟩

/-- Apply one submission to the state; a failed submission leaves the state
unchanged. -/
def applyScore (cfg : Config) (st : ArcadeState)
    (sub : Nat × String × Int) : ArcadeState :=
  match recordScore cfg st sub.1 sub.2.1 sub.2.2 with
  | .ok r => r.state
  | .error _ => st

/-- Run a sequence of score submissions (any interleaving of concurrent
submissions, serialized per §5's atomic check-then-insert model). -/
def runScores (cfg : Config) (st : ArcadeState)
    (subs : List (Nat × String × Int)) : ArcadeState :=
  subs.foldl (applyScore cfg) st

/-- Modelled from the spec (§7): a submission attempted against the
persistence collaborator; the head of `avail` says whether the collaborator
is available for this one transaction.  The second component counts the
transaction attempts the engine makes — it performs no automatic retry. -/
def submitScoreP (avail : List Bool) (cfg : Config) (st : ArcadeState)
    (uid : Nat) (gameName : String) (score : Int) :
    Except ArcadeError SubmitResult × Nat :=
  if avail.headD false then (recordScore cfg st uid gameName score, 1)
  else (.error .persistenceUnavailable, 1)

/-! ## Leaderboard ranker (spec §4.3) -/

/-- Modelled from the spec: `totalScore` — the sum of all ScoreEvent score
values for the user (may be negative). -/
def totalScoreOf (events : List ScoreEvent) (uid : Nat) : Int :=
  ((events.filter (fun e => e.userId == uid)).map (fun e => e.scoreValue)).sum

/-- One leaderboard row: the user with aggregated score and games played. -/
structure RankEntry where
  user : User
  totalScore : Int
  gamesPlayed : Nat
deriving Repr, DecidableEq

/-- The leaderboard rows before ordering, one per user, in user creation
order. -/
def rankEntries (st : ArcadeState) : List RankEntry :=
  st.users.map (fun u => ⟨u, totalScoreOf st.events u.uid, u.totalGamesPlayed⟩)

/-- Modelled from the spec: the leaderboard ordering — descending
lexicographic on (prestige, level, totalScore), ties broken by the creation
order of the User record. -/
def rankLe (a b : RankEntry) : Prop :=
  b.user.prestige < a.user.prestige ∨
    (b.user.prestige = a.user.prestige ∧
      (b.user.level < a.user.level ∨
        (b.user.level = a.user.level ∧
          (b.totalScore < a.totalScore ∨
            (b.totalScore = a.totalScore ∧
              a.user.createdOrder ≤ b.user.createdOrder)))))

instance : DecidableRel rankLe := fun a b => by
  unfold rankLe; infer_instance

instance : IsTotal RankEntry rankLe := by
  constructor; intro a b; unfold rankLe; omega

instance : IsTrans RankEntry rankLe := by
  constructor; intro a b c hab hbc; unfold rankLe at *; omega

/-- Modelled from the spec: `rank(topN)` — sort all users by the leaderboard
key and truncate to the first `topN`. -/
def rank (st : ArcadeState) (topN : Nat) : List RankEntry :=
  (List.insertionSort rankLe (rankEntries st)).take topN

/-! ## Client-side behaviour, embedded from src/server.js -/

/-- A user object as the client sees it. -/
structure ClientUser where
  username : String
  level : Nat
deriving Repr, DecidableEq

/-- Client-side state: the logged-in user (`this.currentUser`) and the
`arcadeUser` entry in localStorage. -/
structure ClientState where
  currentUser : Option ClientUser
  localUser : Option ClientUser
deriving Repr, DecidableEq

/-- An HTTP request the client issues (method, path, body summary). -/
structure Request where
  method : String
  path : String
  body : String
deriving Repr, DecidableEq

/-- A notification the client displays (message, css type). -/
structure Notif where
  message : String
  level : String
deriving Repr, DecidableEq

/-- Outcome of the client's fetch to POST /api/game/score. -/
inductive FetchOutcome where
  | okResp
  | errResp
  | netError
deriving Repr, DecidableEq

/-- Outcome of the client's fetch to GET /api/user inside checkAuth. -/
inductive AuthOutcome where
  | ok (u : ClientUser)
  | notOk
  | netFail
deriving Repr, DecidableEq

/-- checkAuth, from src/server.js lines 22-42: fetch GET /api/user; on an ok
response set currentUser from the body, on a non-ok response clear it, and
on a network error fall back to localStorage. -/
def checkAuth (st : ClientState) (o : AuthOutcome) :
    ClientState × List Request :=
  match o with
  | .ok u => ({ st with currentUser := some u }, [⟨"GET", "/api/user", ""⟩])
  | .notOk => ({ st with currentUser := none }, [⟨"GET", "/api/user", ""⟩])
  | .netFail =>
    (match st.localUser with
     | some u => { st with currentUser := some u }
     | none => st, [⟨"GET", "/api/user", ""⟩])

/-- saveGameScore, from src/server.js lines 234-260: with no logged-in user,
show the login prompt and stop; otherwise POST the score, and on an ok
response show the success message and re-run checkAuth. -/
def saveGameScore (st : ClientState) (gameName : String) (score : Int)
    (fo : FetchOutcome) (ao : AuthOutcome) :
    ClientState × List Request × List Notif :=
  match st.currentUser with
  | none => (st, [], [⟨"Login to save your score!", "info"⟩])
  | some _ =>
    match fo with
    | .okResp =>
      let t := checkAuth st ao
      (t.1, ⟨"POST", "/api/game/score", gameName ++ ":" ++ toString score⟩ :: t.2,
        [⟨"Score saved! +" ++ toString score ++ " XP", "success"⟩])
    | .errResp =>
      (st, [⟨"POST", "/api/game/score", gameName ++ ":" ++ toString score⟩],
        [⟨"Failed to save score", "error"⟩])
    | .netError =>
      (st, [⟨"POST", "/api/game/score", gameName ++ ":" ++ toString score⟩],
        [⟨"Could not save score (offline mode)", "warning"⟩])

/-- The registration form's field values; `none` models a missing field
(querySelector returned null). -/
structure RegisterForm where
  email : Option String
  username : Option String
  password : Option String
deriving Repr, DecidableEq

/-- JavaScript falsiness of a form field value: missing or the empty
string. -/
def falsy : Option String → Bool
  | none => true
  | some s => s = ""

/-- Outcome of the client's fetch to POST /api/register. -/
inductive RegOutcome where
  | okResp
  | errResp
  | netError
deriving Repr, DecidableEq

/-- Effects of one handleRegister call: requests made, notifications shown,
whether the form was reset, whether the view switched to login. -/
structure RegisterEffects where
  requests : List Request
  notifs : List Notif
  didReset : Bool
  switchedToLogin : Bool
deriving Repr, DecidableEq

/-- The register request body: the three field values joined. -/
def regBody (form : RegisterForm) : String :=
  (form.email.getD "") ++ ":" ++ (form.username.getD "") ++ ":" ++
    (form.password.getD "")

/-- handleRegister, from src/server.js lines 125-159: if any of email,
username, password is falsy, show "All fields required!" and return;
otherwise POST /api/register, and on ok show success, switch to the login
form and reset the form. -/
def handleRegister (form : RegisterForm) (o : RegOutcome) : RegisterEffects :=
  if falsy form.email || falsy form.username || falsy form.password then
    ⟨[], [⟨"All fields required!", "error"⟩], false, false⟩
  else
    match o with
    | .okResp =>
      ⟨[⟨"POST", "/api/register", regBody form⟩],
        [⟨"Registration successful! Now login.", "success"⟩], true, true⟩
    | .errResp =>
      ⟨[⟨"POST", "/api/register", regBody form⟩], [⟨"Registration failed", "error"⟩],
        false, false⟩
    | .netError =>
      ⟨[⟨"POST", "/api/register", regBody form⟩], [⟨"Network error. Try again.", "error"⟩],
        false, false⟩

/-! ## Helper lemmas -/

lemma length_filter_le_of_imp {α : Type} (p q : α → Bool) (l : List α)
    (h : ∀ x ∈ l, p x = true → q x = true) :
    (l.filter p).length ≤ (l.filter q).length := by
  induction l with
  | nil => simp
  | cons x xs ih =>
    have hx := h x (List.mem_cons_self x xs)
    have ihh := ih (fun y hy => h y (List.mem_cons_of_mem _ hy))
    simp only [List.filter_cons]
    cases hpx : p x with
    | false => cases hqx : q x <;> simp <;> omega
    | true => simp [hx hpx]; omega

lemma length_filter_lt_of_imp {α : Type} (p q : α → Bool) (l : List α) (a : α)
    (h : ∀ x ∈ l, p x = true → q x = true) (ha : a ∈ l)
    (hqa : q a = true) (hpa : p a = false) :
    (l.filter p).length < (l.filter q).length := by
  induction l with
  | nil => cases ha
  | cons x xs ih =>
    simp only [List.filter_cons]
    rcases List.mem_cons.1 ha with rfl | hax
    · rw [hpa, hqa]
      have := length_filter_le_of_imp p q xs
        (fun y hy => h y (List.mem_cons_of_mem _ hy))
      simp
      omega
    · have ihh := ih (fun y hy => h y (List.mem_cons_of_mem _ hy)) hax
      cases hpx : p x with
      | false => cases hqx : q x <;> simp <;> omega
      | true => simp [h x (List.mem_cons_self x xs) hpx]; omega

lemma levelFor_mono (bps : List Nat) {x y : Nat} (h : x ≤ y) :
    levelFor bps x ≤ levelFor bps y := by
  unfold levelFor
  have := length_filter_le_of_imp (fun b => decide (b ≤ x)) (fun b => decide (b ≤ y)) bps
    (by intro b _ hb; simp at hb ⊢; omega)
  omega

lemma hasUnlock_append (l1 l2 : List UnlockRecord) (uid aid : Nat) :
    hasUnlock (l1 ++ l2) uid aid = (hasUnlock l1 uid aid || hasUnlock l2 uid aid) := by
  simp [hasUnlock]

lemma countUnl_append (l1 l2 : List UnlockRecord) (uid aid : Nat) :
    countUnl (l1 ++ l2) uid aid = countUnl l1 uid aid + countUnl l2 uid aid := by
  simp [countUnl, List.countP_append]

lemma countUnl_eq_zero (l : List UnlockRecord) (uid aid : Nat) :
    countUnl l uid aid = 0 ↔ hasUnlock l uid aid = false := by
  simp [countUnl, hasUnlock, List.countP_eq_zero]

lemma uniqUnl_push {l : List UnlockRecord} {u0 a0 : Nat}
    (h : ∀ uid aid, countUnl l uid aid ≤ 1)
    (hfree : hasUnlock l u0 a0 = false) :
    ∀ uid aid, countUnl (l ++ [⟨u0, a0⟩]) uid aid ≤ 1 := by
  intro uid aid
  rw [countUnl_append]
  by_cases h1 : u0 = uid ∧ a0 = aid
  · obtain ⟨rfl, rfl⟩ := h1
    have h0 : countUnl l u0 a0 = 0 := (countUnl_eq_zero l u0 a0).2 hfree
    have h2 : countUnl [(⟨u0, a0⟩ : UnlockRecord)] u0 a0 = 1 := by
      simp [countUnl]
    omega
  · have h2 : countUnl [(⟨u0, a0⟩ : UnlockRecord)] uid aid = 0 := by
      simp [countUnl]
      omega
    have := h uid aid
    omega

/-- Invariants of a fold of `evalStep` over any catalog fragment, relative to
the starting accumulator: the newly unlocked list grows by some `d`, unlock
records grow by exactly the matching pairs, XP grows by exactly the rewards
of `d`, identity fields are preserved, every element of `d` was locked at the
start, an empty `d` means a strict no-op, the `level = levelFor xp`
invariant is preserved, and per-pair record counts stay at most 1. -/
lemma evalFold_spec (cfg : Config) (events : List ScoreEvent) :
    ∀ (l : List AchievementDefinition)
      (acc : User × List UnlockRecord × List AchievementDefinition),
    ∃ d : List AchievementDefinition,
      (l.foldl (evalStep cfg events) acc).2.2 = acc.2.2 ++ d ∧
      (l.foldl (evalStep cfg events) acc).2.1 =
        acc.2.1 ++ d.map (fun a => (⟨acc.1.uid, a.aid⟩ : UnlockRecord)) ∧
      (l.foldl (evalStep cfg events) acc).1.xp =
        acc.1.xp + (d.map (fun a => a.xpReward)).sum ∧
      (l.foldl (evalStep cfg events) acc).1.uid = acc.1.uid ∧
      (l.foldl (evalStep cfg events) acc).1.prestige = acc.1.prestige ∧
      (l.foldl (evalStep cfg events) acc).1.totalGamesPlayed =
        acc.1.totalGamesPlayed ∧
      (l.foldl (evalStep cfg events) acc).1.createdOrder =
        acc.1.createdOrder ∧
      (∀ a ∈ d, a ∈ l ∧ hasUnlock acc.2.1 acc.1.uid a.aid = false) ∧
      (d = [] → l.foldl (evalStep cfg events) acc = acc) ∧
      (acc.1.level = levelFor cfg.breakpoints acc.1.xp →
        (l.foldl (evalStep cfg events) acc).1.level =
          levelFor cfg.breakpoints (l.foldl (evalStep cfg events) acc).1.xp) ∧
      ((∀ uid aid, countUnl acc.2.1 uid aid ≤ 1) →
        ∀ uid aid, countUnl (l.foldl (evalStep cfg events) acc).2.1 uid aid ≤ 1) := by
  intro l
  induction l with
  | nil =>
    intro acc
    exact ⟨[], by simp⟩
  | cons a l ih =>
    intro acc
    rw [List.foldl_cons]
    by_cases hc : (qualifies events acc.1 a.kind &&
        !hasUnlock acc.2.1 acc.1.uid a.aid) = true
    · have hfree : hasUnlock acc.2.1 acc.1.uid a.aid = false := by
        simp only [Bool.and_eq_true, Bool.not_eq_true'] at hc
        exact hc.2
      have hstep : evalStep cfg events acc a =
          ({ acc.1 with
              xp := acc.1.xp + a.xpReward,
              level := levelFor cfg.breakpoints (acc.1.xp + a.xpReward) },
            acc.2.1 ++ [⟨acc.1.uid, a.aid⟩], acc.2.2 ++ [a]) := by
        simp [evalStep, hc]
      obtain ⟨d, h22, h21, hxp, huid, hpre, htgp, hord, hmem, hnil, hlvl, huniq⟩ :=
        ih (evalStep cfg events acc a)
      refine ⟨a :: d, ?_, ?_, ?_, ?_, ?_, ?_, ?_, ?_, ?_, ?_, ?_⟩
      · rw [h22, hstep]
        simp
      · rw [h21, hstep]
        simp [List.append_assoc]
      · rw [hxp, hstep]
        simp
        omega
      · rw [huid, hstep]
      · rw [hpre, hstep]
      · rw [htgp, hstep]
      · rw [hord, hstep]
      · intro x hx
        rcases List.mem_cons.1 hx with rfl | hxd
        · exact ⟨List.mem_cons_self x l, hfree⟩
        · obtain ⟨hxl, hxu⟩ := hmem x hxd
          refine ⟨List.mem_cons_of_mem _ hxl, ?_⟩
          rw [hstep] at hxu
          simp only [hasUnlock_append, Bool.or_eq_false_iff] at hxu
          exact hxu.1
      · intro h
        cases h
      · intro hl
        apply hlvl
        rw [hstep]
      · intro h
        apply huniq
        rw [hstep]
        exact uniqUnl_push h hfree
    · have hstep : evalStep cfg events acc a = acc := by
        simp [evalStep, hc]
      rw [hstep]
      obtain ⟨d, h22, h21, hxp, huid, hpre, htgp, hord, hmem, hnil, hlvl, huniq⟩ :=
        ih acc
      exact ⟨d, h22, h21, hxp, huid, hpre, htgp, hord,
        fun x hx => ⟨List.mem_cons_of_mem _ (hmem x hx).1, (hmem x hx).2⟩,
        hnil, hlvl, huniq⟩

/-- The invariants of one full evaluator pass, relative to its inputs. -/
lemma evalPass_spec (cfg : Config) (events : List ScoreEvent) (u : User)
    (unl : List UnlockRecord) :
    (evalPass cfg events u unl).2.1 =
      unl ++ (evalPass cfg events u unl).2.2.map
        (fun a => (⟨u.uid, a.aid⟩ : UnlockRecord)) ∧
    (evalPass cfg events u unl).1.xp =
      u.xp + ((evalPass cfg events u unl).2.2.map (fun a => a.xpReward)).sum ∧
    (evalPass cfg events u unl).1.uid = u.uid ∧
    (evalPass cfg events u unl).1.prestige = u.prestige ∧
    (evalPass cfg events u unl).1.totalGamesPlayed = u.totalGamesPlayed ∧
    (evalPass cfg events u unl).1.createdOrder = u.createdOrder ∧
    (∀ a ∈ (evalPass cfg events u unl).2.2,
      a ∈ cfg.catalog ∧ hasUnlock unl u.uid a.aid = false) ∧
    ((evalPass cfg events u unl).2.2 = [] →
      evalPass cfg events u unl = (u, unl, [])) ∧
    (u.level = levelFor cfg.breakpoints u.xp →
      (evalPass cfg events u unl).1.level =
        levelFor cfg.breakpoints (evalPass cfg events u unl).1.xp) ∧
    ((∀ uid aid, countUnl unl uid aid ≤ 1) →
      ∀ uid aid, countUnl (evalPass cfg events u unl).2.1 uid aid ≤ 1) := by
  obtain ⟨d, h22, h21, hxp, huid, hpre, htgp, hord, hmem, hnil, hlvl, huniq⟩ :=
    evalFold_spec cfg events cfg.catalog (u, unl, [])
  have hd : (evalPass cfg events u unl).2.2 = d := by
    rw [show evalPass cfg events u unl =
      cfg.catalog.foldl (evalStep cfg events) (u, unl, []) from rfl]
    simpa using h22
  rw [hd]
  exact ⟨h21, hxp, huid, hpre, htgp, hord, hmem, hnil, hlvl, huniq⟩

/-- Number of catalog entries not yet unlocked for a user: the termination
measure of the evaluator cascade. -/
def remaining (cfg : Config) (uid : Nat) (unl : List UnlockRecord) : Nat :=
  (cfg.catalog.filter (fun a => !hasUnlock unl uid a.aid)).length

lemma remaining_le (cfg : Config) (uid : Nat) (unl : List UnlockRecord) :
    remaining cfg uid unl ≤ cfg.catalog.length :=
  List.length_filter_le _ _

/-- A productive evaluator pass strictly shrinks the set of still-locked
catalog entries for that user. -/
lemma evalPass_remaining_lt (cfg : Config) (events : List ScoreEvent)
    (u : User) (unl : List UnlockRecord)
    (hne : (evalPass cfg events u unl).2.2 ≠ []) :
    remaining cfg u.uid (evalPass cfg events u unl).2.1 <
      remaining cfg u.uid unl := by
  obtain ⟨h21, hxp, huid, hpre, htgp, hord, hmem, hnil, hlvl, huniq⟩ :=
    evalPass_spec cfg events u unl
  obtain ⟨a, d', hcons⟩ := List.exists_cons_of_ne_nil hne
  have hamem : a ∈ (evalPass cfg events u unl).2.2 := by
    rw [hcons]; exact List.mem_cons_self a d'
  obtain ⟨hacat, hafree⟩ := hmem a hamem
  have hanow : hasUnlock (evalPass cfg events u unl).2.1 u.uid a.aid = true := by
    rw [h21, hasUnlock_append]
    have : hasUnlock ((evalPass cfg events u unl).2.2.map
        (fun a => (⟨u.uid, a.aid⟩ : UnlockRecord))) u.uid a.aid = true := by
      simp only [hasUnlock, List.any_eq_true]
      exact ⟨⟨u.uid, a.aid⟩, List.mem_map.2 ⟨a, hamem, rfl⟩, by simp⟩
    simp [this]
  unfold remaining
  apply length_filter_lt_of_imp _ _ _ a
  · intro x _ hx
    simp only [Bool.not_eq_true'] at hx ⊢
    rw [h21, hasUnlock_append] at hx
    simp only [Bool.or_eq_false_iff] at hx
    exact hx.1
  · exact hacat
  · simp [hafree]
  · simp [hanow]

/-- The invariants of the evaluator work loop, relative to its inputs. -/
lemma evalLoop_spec (cfg : Config) (events : List ScoreEvent) :
    ∀ (fuel : Nat) (u : User) (unl : List UnlockRecord),
    (evalLoop cfg events fuel u unl).2.1 =
      unl ++ (evalLoop cfg events fuel u unl).2.2.map
        (fun a => (⟨u.uid, a.aid⟩ : UnlockRecord)) ∧
    (evalLoop cfg events fuel u unl).1.xp =
      u.xp + ((evalLoop cfg events fuel u unl).2.2.map
        (fun a => a.xpReward)).sum ∧
    (evalLoop cfg events fuel u unl).1.uid = u.uid ∧
    (evalLoop cfg events fuel u unl).1.prestige = u.prestige ∧
    (evalLoop cfg events fuel u unl).1.totalGamesPlayed =
      u.totalGamesPlayed ∧
    (evalLoop cfg events fuel u unl).1.createdOrder = u.createdOrder ∧
    (u.level = levelFor cfg.breakpoints u.xp →
      (evalLoop cfg events fuel u unl).1.level =
        levelFor cfg.breakpoints (evalLoop cfg events fuel u unl).1.xp) ∧
    ((∀ uid aid, countUnl unl uid aid ≤ 1) →
      ∀ uid aid, countUnl (evalLoop cfg events fuel u unl).2.1 uid aid ≤ 1) := by
  intro fuel
  induction fuel with
  | zero =>
    intro u unl
    simp [evalLoop]
  | succ fuel ih =>
    intro u unl
    obtain ⟨p21, pxp, puid, ppre, ptgp, pord, pmemo, pnil, plvl, puniq⟩ :=
      evalPass_spec cfg events u unl
    by_cases hemp : (evalPass cfg events u unl).2.2.isEmpty = true
    · have he : (evalPass cfg events u unl).2.2 = [] :=
        List.isEmpty_iff.1 hemp
      have hstut := pnil he
      have hres : evalLoop cfg events (fuel + 1) u unl = (u, unl, []) := by
        rw [evalLoop]
        simp [hstut]
      rw [hres]
      simp
    · have hres : evalLoop cfg events (fuel + 1) u unl =
          ((evalLoop cfg events fuel (evalPass cfg events u unl).1
              (evalPass cfg events u unl).2.1).1,
            (evalLoop cfg events fuel (evalPass cfg events u unl).1
              (evalPass cfg events u unl).2.1).2.1,
            (evalPass cfg events u unl).2.2 ++
              (evalLoop cfg events fuel (evalPass cfg events u unl).1
                (evalPass cfg events u unl).2.1).2.2) := by
        simp only [evalLoop]
        rw [if_neg hemp]
      obtain ⟨s21, sxp, suid, spre, stgp, sord, slvl, suniq⟩ :=
        ih (evalPass cfg events u unl).1 (evalPass cfg events u unl).2.1
      rw [hres]
      refine ⟨?_, ?_, ?_, ?_, ?_, ?_, ?_, ?_⟩
      · rw [s21, p21, puid]
        simp [List.append_assoc]
      · rw [sxp, pxp]
        simp
        omega
      · rw [suid, puid]
      · rw [spre, ppre]
      · rw [stgp, ptgp]
      · rw [sord, pord]
      · intro h
        exact slvl (plvl h)
      · intro h
        exact suniq (puniq h)

/-- With more fuel than still-locked catalog entries, the work loop reaches a
fixed point: one more pass over its result unlocks nothing. -/
lemma evalLoop_fix (cfg : Config) (events : List ScoreEvent) :
    ∀ (fuel : Nat) (u : User) (unl : List UnlockRecord),
    remaining cfg u.uid unl < fuel →
    (evalPass cfg events (evalLoop cfg events fuel u unl).1
      (evalLoop cfg events fuel u unl).2.1).2.2 = [] := by
  intro fuel
  induction fuel with
  | zero => intro u unl h; omega
  | succ fuel ih =>
    intro u unl h
    obtain ⟨p21, pxp, puid, ppre, ptgp, pord, pmemo, pnil, plvl, puniq⟩ :=
      evalPass_spec cfg events u unl
    by_cases hemp : (evalPass cfg events u unl).2.2.isEmpty = true
    · have he : (evalPass cfg events u unl).2.2 = [] :=
        List.isEmpty_iff.1 hemp
      have hstut := pnil he
      have hres : evalLoop cfg events (fuel + 1) u unl = (u, unl, []) := by
        rw [evalLoop]
        simp [hstut]
      rw [hres]
      exact he
    · have hne : (evalPass cfg events u unl).2.2 ≠ [] := by
        intro hcontra
        exact hemp (by simp [hcontra])
      have hres : evalLoop cfg events (fuel + 1) u unl =
          ((evalLoop cfg events fuel (evalPass cfg events u unl).1
              (evalPass cfg events u unl).2.1).1,
            (evalLoop cfg events fuel (evalPass cfg events u unl).1
              (evalPass cfg events u unl).2.1).2.1,
            (evalPass cfg events u unl).2.2 ++
              (evalLoop cfg events fuel (evalPass cfg events u unl).1
                (evalPass cfg events u unl).2.1).2.2) := by
        simp only [evalLoop]
        rw [if_neg hemp]
      have hlt := evalPass_remaining_lt cfg events u unl hne
      have hfuel : remaining cfg (evalPass cfg events u unl).1.uid
          (evalPass cfg events u unl).2.1 < fuel := by
        rw [puid]
        omega
      have := ih (evalPass cfg events u unl).1 (evalPass cfg events u unl).2.1
        hfuel
      rw [hres]
      exact this

/-- The invariants of the full evaluator, relative to its inputs. -/
lemma evaluate_spec (cfg : Config) (events : List ScoreEvent) (u : User)
    (unl : List UnlockRecord) :
    (evaluate cfg events u unl).2.1 =
      unl ++ (evaluate cfg events u unl).2.2.map
        (fun a => (⟨u.uid, a.aid⟩ : UnlockRecord)) ∧
    (evaluate cfg events u unl).1.xp =
      u.xp + ((evaluate cfg events u unl).2.2.map
        (fun a => a.xpReward)).sum ∧
    (evaluate cfg events u unl).1.uid = u.uid ∧
    (evaluate cfg events u unl).1.prestige = u.prestige ∧
    (evaluate cfg events u unl).1.totalGamesPlayed = u.totalGamesPlayed ∧
    (evaluate cfg events u unl).1.createdOrder = u.createdOrder ∧
    (u.level = levelFor cfg.breakpoints u.xp →
      (evaluate cfg events u unl).1.level =
        levelFor cfg.breakpoints (evaluate cfg events u unl).1.xp) ∧
    ((∀ uid aid, countUnl unl uid aid ≤ 1) →
      ∀ uid aid, countUnl (evaluate cfg events u unl).2.1 uid aid ≤ 1) :=
  evalLoop_spec cfg events (cfg.catalog.length + 1) u unl

/-- One more evaluator pass after `evaluate` unlocks nothing. -/
lemma evaluate_pass_empty (cfg : Config) (events : List ScoreEvent) (u : User)
    (unl : List UnlockRecord) :
    (evalPass cfg events (evaluate cfg events u unl).1
      (evaluate cfg events u unl).2.1).2.2 = [] := by
  apply evalLoop_fix
  have := remaining_le cfg u.uid unl
  omega

/-- Re-running `evaluate` on its own output is a strict no-op. -/
lemma evaluate_fixpoint (cfg : Config) (events : List ScoreEvent) (u : User)
    (unl : List UnlockRecord) :
    evaluate cfg events (evaluate cfg events u unl).1
        (evaluate cfg events u unl).2.1 =
      ((evaluate cfg events u unl).1, (evaluate cfg events u unl).2.1,
        ([] : List AchievementDefinition)) := by
  have he := evaluate_pass_empty cfg events u unl
  obtain ⟨p21, pxp, puid, ppre, ptgp, pord, pmemo, pnil, plvl, puniq⟩ :=
    evalPass_spec cfg events (evaluate cfg events u unl).1
      (evaluate cfg events u unl).2.1
  have hstut := pnil he
  show evalLoop cfg events (cfg.catalog.length + 1) _ _ = _
  rw [evalLoop]
  simp [hstut]

lemma findUser_uid {users : List User} {uid : Nat} {u : User}
    (h : findUser users uid = some u) : u.uid = uid := by
  have := List.find?_some h
  simpa using this

lemma findUser_mem {users : List User} {uid : Nat} {u : User}
    (h : findUser users uid = some u) : u ∈ users :=
  List.mem_of_find?_eq_some h

lemma mem_setUser {users : List User} {u' v : User}
    (h : v ∈ setUser users u') : v = u' ∨ v ∈ users := by
  obtain ⟨w, hw, hwv⟩ := List.mem_map.1 h
  by_cases hww : (w.uid == u'.uid) = true
  · rw [if_pos hww] at hwv
    exact Or.inl hwv.symm
  · rw [if_neg hww] at hwv
    exact Or.inr (hwv ▸ hw)

lemma findUser_setUser_self {users : List User} {uid : Nat} {u u' : User}
    (hfu : findUser users uid = some u) (huid : u'.uid = uid) :
    findUser (setUser users u') uid = some u' := by
  induction users with
  | nil => simp [findUser] at hfu
  | cons v vs ih =>
    by_cases hv : (v.uid == uid) = true
    · have hvu : v.uid = uid := by simpa using hv
      have h1 : (v.uid == u'.uid) = true := by
        simp [hvu, huid]
      show List.find? _ ((if v.uid == u'.uid then u' else v) :: setUser vs u') = _
      rw [if_pos h1]
      rw [List.find?_cons_of_pos _ (by simp [huid])]
    · have hvu : v.uid ≠ uid := by simpa using hv
      have h1 : (v.uid == u'.uid) = false := by
        simp [huid]
        exact hvu
      have hfu' : findUser vs uid = some u := by
        have : findUser (v :: vs) uid = findUser vs uid := by
          unfold findUser
          rw [List.find?_cons_of_neg _ (by simpa using hvu)]
        rw [← this]
        exact hfu
      show List.find? _ ((if v.uid == u'.uid then u' else v) :: setUser vs u') = _
      rw [if_neg (by simp [h1])]
      rw [List.find?_cons_of_neg _ (by simpa using hvu)]
      exact ih hfu'

lemma findUser_setUser_other (users : List User) (u' : User) (uid : Nat)
    (h : u'.uid ≠ uid) :
    findUser (setUser users u') uid = findUser users uid := by
  induction users with
  | nil => rfl
  | cons v vs ih =>
    show List.find? _ ((if v.uid == u'.uid then u' else v) :: setUser vs u') = _
    by_cases hv : (v.uid == u'.uid) = true
    · have hvu : v.uid = u'.uid := by simpa using hv
      rw [if_pos hv]
      rw [List.find?_cons_of_neg _ (by simpa using h)]
      unfold findUser
      rw [List.find?_cons_of_neg _ (by simp [hvu]; exact h)]
      exact ih
    · rw [if_neg hv]
      by_cases hvid : (v.uid == uid) = true
      · unfold findUser
        rw [List.find?_cons_of_pos _ (by simpa using hvid),
          List.find?_cons_of_pos _ (by simpa using hvid)]
      · unfold findUser
        rw [List.find?_cons_of_neg _ (by simpa using hvid),
          List.find?_cons_of_neg _ (by simpa using hvid)]
        exact ih

/-- Characterization of a successful `recordScore`, bundling everything the
claims need: the appended event, the stats update, XP coming only from
achievement rewards, the written-back users list, the grown unlock records
and the preserved invariants. -/
lemma recordScore_ok_spec {cfg : Config} {st : ArcadeState} {uid : Nat}
    {game : String} {score : Int} {u : User} {r : SubmitResult}
    (hfu : findUser st.users uid = some u)
    (hok : recordScore cfg st uid game score = .ok r) :
    r.state.events = st.events ++ [⟨uid, game, score⟩] ∧
    r.stats.uid = uid ∧
    r.stats.totalGamesPlayed = u.totalGamesPlayed + 1 ∧
    r.stats.prestige = u.prestige ∧
    r.stats.xp = u.xp + (r.newlyUnlocked.map (fun a => a.xpReward)).sum ∧
    (u.level = levelFor cfg.breakpoints u.xp →
      r.stats.level = levelFor cfg.breakpoints r.stats.xp) ∧
    r.state.users = setUser st.users r.stats ∧
    r.state.unlocks = st.unlocks ++
      r.newlyUnlocked.map (fun a => (⟨uid, a.aid⟩ : UnlockRecord)) ∧
    ((∀ i j, countUnl st.unlocks i j ≤ 1) →
      ∀ i j, countUnl r.state.unlocks i j ≤ 1) := by
  have huid : u.uid = uid := findUser_uid hfu
  by_cases hg : game = ""
  · rw [recordScore, hfu] at hok
    dsimp only at hok
    rw [if_pos hg] at hok
    cases hok
  · rw [recordScore, hfu] at hok
    dsimp only at hok
    rw [if_neg hg] at hok
    obtain ⟨e21, exp, euid, epre, etgp, eord, elvl, euniq⟩ :=
      evaluate_spec cfg (st.events ++ [(⟨uid, game, score⟩ : ScoreEvent)])
        { u with totalGamesPlayed := u.totalGamesPlayed + 1 } st.unlocks
    cases hok
    dsimp only
    refine ⟨rfl, ?_, ?_, ?_, ?_, ?_, rfl, ?_, ?_⟩
    · rw [euid]
      exact huid
    · rw [etgp]
    · rw [epre]
    · rw [exp]
    · intro hl
      exact elvl hl
    · rw [e21]
      simp only [huid]
    · exact euniq

lemma recordScore_error_unknown (cfg : Config) (st : ArcadeState) (uid : Nat)
    (game : String) (score : Int) :
    recordScore cfg st uid game score = .error .unknownUser ↔
      findUser st.users uid = none := by
  cases hfu : findUser st.users uid with
  | none => simp [recordScore, hfu]
  | some u =>
    by_cases hg : game = "" <;> simp [recordScore, hfu, hg]

lemma recordScore_error_invalid (cfg : Config) (st : ArcadeState) (uid : Nat)
    (game : String) (score : Int) :
    recordScore cfg st uid game score = .error .invalidInput ↔
      (findUser st.users uid ≠ none ∧ game = "") := by
  cases hfu : findUser st.users uid with
  | none => simp [recordScore, hfu]
  | some u =>
    by_cases hg : game = "" <;> simp [recordScore, hfu, hg]

lemma recordScore_not_unavailable (cfg : Config) (st : ArcadeState)
    (uid : Nat) (game : String) (score : Int) :
    recordScore cfg st uid game score ≠ .error .persistenceUnavailable := by
  cases hfu : findUser st.users uid with
  | none => simp [recordScore, hfu]
  | some u =>
    by_cases hg : game = "" <;> simp [recordScore, hfu, hg]

lemma exists_findUser_of_ok {cfg : Config} {st : ArcadeState} {uid : Nat}
    {game : String} {score : Int} {r : SubmitResult}
    (hok : recordScore cfg st uid game score = .ok r) :
    ∃ u, findUser st.users uid = some u := by
  cases hfu : findUser st.users uid with
  | none => simp [recordScore, hfu] at hok
  | some u => exact ⟨u, rfl⟩

/-- Per-user invariant: every stored level matches `levelFor` of the stored
XP. -/
def statsInv (cfg : Config) (st : ArcadeState) : Prop :=
  ∀ u ∈ st.users, u.level = levelFor cfg.breakpoints u.xp

instance (cfg : Config) (st : ArcadeState) : Decidable (statsInv cfg st) := by
  unfold statsInv
  infer_instance

lemma applyScore_eq_of_ok {cfg : Config} {st : ArcadeState}
    {sub : Nat × String × Int} {r : SubmitResult}
    (hr : recordScore cfg st sub.1 sub.2.1 sub.2.2 = .ok r) :
    applyScore cfg st sub = r.state := by
  simp [applyScore, hr]

lemma applyScore_eq_of_error {cfg : Config} {st : ArcadeState}
    {sub : Nat × String × Int} {e : ArcadeError}
    (hr : recordScore cfg st sub.1 sub.2.1 sub.2.2 = .error e) :
    applyScore cfg st sub = st := by
  simp [applyScore, hr]

lemma applyScore_statsInv (cfg : Config) (st : ArcadeState)
    (sub : Nat × String × Int) (hinv : statsInv cfg st) :
    statsInv cfg (applyScore cfg st sub) := by
  rcases hr : recordScore cfg st sub.1 sub.2.1 sub.2.2 with e | r
  · rw [applyScore_eq_of_error hr]
    exact hinv
  · obtain ⟨u0, hfu0⟩ := exists_findUser_of_ok hr
    obtain ⟨hev, hsuid, htgp, hpre, hxp, hlvl, husers, hunl, huniq⟩ :=
      recordScore_ok_spec hfu0 hr
    rw [applyScore_eq_of_ok hr]
    intro v hv
    rw [husers] at hv
    rcases mem_setUser hv with rfl | hvm
    · exact hlvl (hinv u0 (findUser_mem hfu0))
    · exact hinv v hvm

lemma applyScore_uniq (cfg : Config) (st : ArcadeState)
    (sub : Nat × String × Int)
    (h : ∀ i j, countUnl st.unlocks i j ≤ 1) :
    ∀ i j, countUnl (applyScore cfg st sub).unlocks i j ≤ 1 := by
  rcases hr : recordScore cfg st sub.1 sub.2.1 sub.2.2 with e | r
  · rw [applyScore_eq_of_error hr]
    exact h
  · obtain ⟨u0, hfu0⟩ := exists_findUser_of_ok hr
    obtain ⟨hev, hsuid, htgp, hpre, hxp, hlvl, husers, hunl, huniq⟩ :=
      recordScore_ok_spec hfu0 hr
    rw [applyScore_eq_of_ok hr]
    exact huniq h

lemma applyScore_findUser (cfg : Config) (st : ArcadeState)
    (sub : Nat × String × Int) (uid : Nat) (u : User)
    (hinv : statsInv cfg st) (hfu : findUser st.users uid = some u) :
    ∃ u', findUser (applyScore cfg st sub).users uid = some u' ∧
      u.level ≤ u'.level := by
  rcases hr : recordScore cfg st sub.1 sub.2.1 sub.2.2 with e | r
  · rw [applyScore_eq_of_error hr]
    exact ⟨u, hfu, le_refl _⟩
  · by_cases he : sub.1 = uid
    · have hfu0 : findUser st.users sub.1 = some u := by
        rw [he]
        exact hfu
      obtain ⟨hev, hsuid, htgp, hpre, hxp, hlvl, husers, hunl, huniq⟩ :=
        recordScore_ok_spec hfu0 hr
      rw [applyScore_eq_of_ok hr]
      refine ⟨r.stats, ?_, ?_⟩
      · rw [husers]
        exact findUser_setUser_self hfu (hsuid.trans he)
      · have hl0 : u.level = levelFor cfg.breakpoints u.xp :=
          hinv u (findUser_mem hfu)
        have hxple : u.xp ≤ r.stats.xp := by
          rw [hxp]
          omega
        rw [hlvl hl0, hl0]
        exact levelFor_mono _ hxple
    · obtain ⟨u0, hfu0⟩ := exists_findUser_of_ok hr
      obtain ⟨hev, hsuid, htgp, hpre, hxp, hlvl, husers, hunl, huniq⟩ :=
        recordScore_ok_spec hfu0 hr
      rw [applyScore_eq_of_ok hr]
      have hne : r.stats.uid ≠ uid := by
        rw [hsuid]
        exact he
      rw [husers, findUser_setUser_other _ _ _ hne]
      exact ⟨u, hfu, le_refl _⟩

lemma runScores_cons (cfg : Config) (st : ArcadeState)
    (s : Nat × String × Int) (subs : List (Nat × String × Int)) :
    runScores cfg st (s :: subs) = runScores cfg (applyScore cfg st s) subs :=
  rfl

lemma runScores_statsInv (cfg : Config)
    (subs : List (Nat × String × Int)) :
    ∀ st : ArcadeState, statsInv cfg st → statsInv cfg (runScores cfg st subs) := by
  induction subs with
  | nil => intro st h; exact h
  | cons s subs ih =>
    intro st h
    rw [runScores_cons]
    exact ih _ (applyScore_statsInv cfg st s h)

lemma runScores_uniq (cfg : Config) (subs : List (Nat × String × Int)) :
    ∀ st : ArcadeState, (∀ i j, countUnl st.unlocks i j ≤ 1) →
      ∀ i j, countUnl (runScores cfg st subs).unlocks i j ≤ 1 := by
  induction subs with
  | nil => intro st h; exact h
  | cons s subs ih =>
    intro st h
    rw [runScores_cons]
    exact ih _ (applyScore_uniq cfg st s h)

lemma runScores_findUser (cfg : Config) (subs : List (Nat × String × Int)) :
    ∀ (st : ArcadeState) (uid : Nat) (u : User), statsInv cfg st →
      findUser st.users uid = some u →
      ∃ u', findUser (runScores cfg st subs).users uid = some u' ∧
        u.level ≤ u'.level := by
  induction subs with
  | nil => intro st uid u _ hfu; exact ⟨u, hfu, le_refl _⟩
  | cons s subs ih =>
    intro st uid u hinv hfu
    rw [runScores_cons]
    obtain ⟨u1, hfu1, hle1⟩ := applyScore_findUser cfg st s uid u hinv hfu
    obtain ⟨u2, hfu2, hle2⟩ := ih _ uid u1
      (applyScore_statsInv cfg st s hinv) hfu1
    exact ⟨u2, hfu2, le_trans hle1 hle2⟩

/-! ## Concrete instances used by witnesses -/

/-- A small configuration: two XP breakpoints and a three-entry catalog. -/
def cfg1 : Config :=
  ⟨[100, 250],
    [⟨1, 100, .firstGame⟩, ⟨2, 50, .scoreThreshold 10000⟩,
      ⟨3, 500, .levelReached 2⟩]⟩

/-- A fresh user. -/
def user1 : User := ⟨1, 1, 0, 0, 0, 0⟩

/-- A state holding only `user1`. -/
def st1 : ArcadeState := ⟨[user1], [], []⟩

/-- The empty configuration. -/
def cfg0 : Config := ⟨[], []⟩

/-- The empty state. -/
def st0 : ArcadeState := ⟨[], [], []⟩

/-- The result of `user1` submitting a score of 500 at "pac" under `cfg1`:
FirstGame unlocks, the XP reward lifts the user past two breakpoints, and
the LevelReached cascade unlocks a second achievement. -/
def r1 : SubmitResult :=
  ⟨⟨[⟨1, 3, 600, 0, 1, 0⟩], [⟨1, "pac", 500⟩], [⟨1, 1⟩, ⟨1, 3⟩]⟩,
    ⟨1, 3, 600, 0, 1, 0⟩,
    [⟨1, 100, .firstGame⟩, ⟨3, 500, .levelReached 2⟩]⟩

/-! ## Claims -/

/-- C1: for every user and every achievement, at any reachable state the
number of UnlockRecords for the pair is at most 1, preserved by every
sequence of score submissions (any serialization of concurrent
submissions under the atomic check-then-insert model of §5). -/
theorem unlock_records_unique (cfg : Config) (st : ArcadeState)
    (subs : List (Nat × String × Int))
    (h : ∀ i j, countUnl st.unlocks i j ≤ 1) :
    ∀ i j, countUnl (runScores cfg st subs).unlocks i j ≤ 1 :=
  runScores_uniq cfg subs st h

theorem unlock_records_unique_witness :
    countUnl (runScores cfg1 st1
      [(1, "pac", 500), (1, "pac", 12000)]).unlocks 1 1 ≤ 1 :=
  unlock_records_unique cfg1 st1 [(1, "pac", 500), (1, "pac", 12000)]
    (fun i j => by simp [st1, countUnl]) 1 1

/-- C2: running the Achievement Evaluator a second time on the state
produced by a first run creates zero additional UnlockRecords, adds no
additional XP, and reports nothing newly unlocked. -/
theorem evaluator_idempotent (cfg : Config) (events : List ScoreEvent)
    (u : User) (unl : List UnlockRecord) :
    (evaluate cfg events (evaluate cfg events u unl).1
      (evaluate cfg events u unl).2.1).2.2 = [] ∧
    (evaluate cfg events (evaluate cfg events u unl).1
      (evaluate cfg events u unl).2.1).2.1 =
        (evaluate cfg events u unl).2.1 ∧
    (evaluate cfg events (evaluate cfg events u unl).1
      (evaluate cfg events u unl).2.1).1.xp =
        (evaluate cfg events u unl).1.xp := by
  rw [evaluate_fixpoint]
  exact ⟨rfl, rfl, rfl⟩

/-- C3: a successful score submission changes XP exactly by the sum of the
newly unlocked achievements' xp_reward values — the submitted score value
itself is never added — and the resulting level is exactly `levelFor` of
the accumulated XP. -/
theorem xp_only_from_achievement_rewards (cfg : Config) (st : ArcadeState)
    (uid : Nat) (game : String) (score : Int) (u : User) (r : SubmitResult)
    (hfu : findUser st.users uid = some u)
    (hlv : u.level = levelFor cfg.breakpoints u.xp)
    (hok : recordScore cfg st uid game score = .ok r) :
    r.stats.xp = u.xp + (r.newlyUnlocked.map (fun a => a.xpReward)).sum ∧
    r.stats.level = levelFor cfg.breakpoints r.stats.xp := by
  obtain ⟨hev, hsuid, htgp, hpre, hxp, hlvl, husers, hunl, huniq⟩ :=
    recordScore_ok_spec hfu hok
  exact ⟨hxp, hlvl hlv⟩

theorem xp_only_from_achievement_rewards_witness :
    r1.stats.xp = user1.xp +
      (r1.newlyUnlocked.map (fun a => a.xpReward)).sum ∧
    r1.stats.level = levelFor cfg1.breakpoints r1.stats.xp :=
  xp_only_from_achievement_rewards cfg1 st1 1 "pac" 500 user1 r1
    (by decide) (by decide) rfl

/-- C4: the leaderboard is sorted by the descending key
(prestige, level, totalScore) with ties broken by user creation order
(`rankLe`), it is a permutation of the per-user entries when untruncated,
and in particular higher prestige always ranks first. -/
theorem leaderboard_ordering (st : ArcadeState) (topN : Nat) :
    List.Sorted rankLe (rank st topN) ∧
    (rank st (rankEntries st).length).Perm (rankEntries st) ∧
    (rank st topN).Pairwise
      (fun a b => b.user.prestige ≤ a.user.prestige) := by
  have hsorted : List.Sorted rankLe
      (List.insertionSort rankLe (rankEntries st)) :=
    List.sorted_insertionSort rankLe (rankEntries st)
  have htake : List.Sorted rankLe (rank st topN) :=
    List.Pairwise.sublist (List.take_sublist _ _) hsorted
  refine ⟨htake, ?_, ?_⟩
  · have hlen : (List.insertionSort rankLe (rankEntries st)).length =
        (rankEntries st).length :=
      (List.perm_insertionSort rankLe (rankEntries st)).length_eq
    rw [rank, ← hlen, List.take_length]
    exact List.perm_insertionSort rankLe (rankEntries st)
  · exact List.Pairwise.imp
      (fun hab => by unfold rankLe at hab; omega) htake

/-- C5: across any sequence of score submissions a user's level never
decreases, and `levelFor` is monotonically non-decreasing in XP. -/
theorem level_never_decreases (cfg : Config) (st : ArcadeState)
    (subs : List (Nat × String × Int)) (uid : Nat) (u : User)
    (hinv : statsInv cfg st) (hfu : findUser st.users uid = some u) :
    (∃ u', findUser (runScores cfg st subs).users uid = some u' ∧
      u.level ≤ u'.level) ∧
    ∀ x y : Nat, x ≤ y →
      levelFor cfg.breakpoints x ≤ levelFor cfg.breakpoints y :=
  ⟨runScores_findUser cfg subs st uid u hinv hfu,
    fun _ _ h => levelFor_mono _ h⟩

theorem level_never_decreases_witness :
    statsInv cfg1 st1 ∧
    ∃ u', findUser (runScores cfg1 st1
        [(1, "pac", 500), (1, "pac", -20)]).users 1 = some u' ∧
      user1.level ≤ u'.level :=
  ⟨by decide,
    (level_never_decreases cfg1 st1 [(1, "pac", 500), (1, "pac", -20)] 1
      user1 (by decide) (by decide)).1⟩

/-- C6: for an existing user and a non-empty game name, recordScore
succeeds for every integer score — including zero and negative values,
which are never clamped or rejected — appending exactly that one
ScoreEvent and incrementing total_games_played by exactly 1. -/
theorem recordScore_appends_one_event (cfg : Config) (st : ArcadeState)
    (uid : Nat) (game : String) (score : Int) (u : User)
    (hfu : findUser st.users uid = some u) (hg : game ≠ "") :
    ∃ r, recordScore cfg st uid game score = .ok r ∧
      r.state.events = st.events ++ [⟨uid, game, score⟩] ∧
      r.stats.totalGamesPlayed = u.totalGamesPlayed + 1 := by
  obtain ⟨r, hr⟩ : ∃ r, recordScore cfg st uid game score = .ok r := by
    simp only [recordScore, hfu]
    rw [if_neg hg]
    exact ⟨_, rfl⟩
  obtain ⟨hev, hsuid, htgp, hpre, hxp, hlvl, husers, hunl, huniq⟩ :=
    recordScore_ok_spec hfu hr
  exact ⟨r, hr, hev, htgp⟩

theorem recordScore_appends_one_event_witness :
    findUser st1.users 1 = some user1 ∧ ("pac" : String) ≠ "" ∧
    ∃ r, recordScore cfg1 st1 1 "pac" (-3) = .ok r ∧
      r.state.events = st1.events ++ [⟨1, "pac", -3⟩] ∧
      r.stats.totalGamesPlayed = user1.totalGamesPlayed + 1 :=
  ⟨by decide, by decide,
    recordScore_appends_one_event cfg1 st1 1 "pac" (-3) user1
      (by decide) (by decide)⟩

/-- C7 counterexample: at a state with no user 7, a submission with an
empty game name fails with UnknownUser, not InvalidInput — so "fails with
InvalidInput exactly when gameName is the empty string" is false at this
input. -/
theorem invalidInput_iff_empty_name_false :
    ¬ (recordScore cfg0 st0 7 "" 5 = .error .invalidInput ↔
      ("" : String) = "") := by
  have h : recordScore cfg0 st0 7 "" 5 = .error .unknownUser := rfl
  simp [h]

/-- C7 (amended): recordScore fails with UnknownUser exactly when the user
id does not exist, with InvalidInput exactly when the user exists and the
game name is empty; every failure is non-retryable and leaves the state
unchanged. -/
theorem recordScore_failure_spec (cfg : Config) (st : ArcadeState)
    (uid : Nat) (game : String) (score : Int) :
    (recordScore cfg st uid game score = .error .unknownUser ↔
      findUser st.users uid = none) ∧
    (recordScore cfg st uid game score = .error .invalidInput ↔
      (findUser st.users uid ≠ none ∧ game = "")) ∧
    (∀ e, recordScore cfg st uid game score = .error e →
      retryable e = false ∧ applyScore cfg st (uid, game, score) = st) := by
  refine ⟨recordScore_error_unknown cfg st uid game score,
    recordScore_error_invalid cfg st uid game score, ?_⟩
  intro e he
  refine ⟨?_, applyScore_eq_of_error he⟩
  cases e with
  | unknownUser => rfl
  | invalidInput => rfl
  | persistenceUnavailable =>
    exact absurd he (recordScore_not_unavailable cfg st uid game score)

theorem recordScore_failure_spec_witness :
    recordScore cfg0 st0 7 "x" 5 = .error .unknownUser ∧
    retryable ArcadeError.unknownUser = false ∧
    applyScore cfg0 st0 (7, "x", 5) = st0 := by
  have h1 := (recordScore_failure_spec cfg0 st0 7 "x" 5).1.2 (by decide)
  have h2 := (recordScore_failure_spec cfg0 st0 7 "x" 5).2.2
    ArcadeError.unknownUser h1
  exact ⟨h1, h2.1, h2.2⟩

/-- C8: when the persistence collaborator is unavailable, the submission
reports the retryable PersistenceUnavailable failure, makes exactly one
transaction attempt (no automatic retry), and the report is the same
whatever the stored state — it asserts nothing about whether the score was
recorded. -/
theorem persistence_failure_reported (avail : List Bool) (cfg : Config)
    (st : ArcadeState) (uid : Nat) (game : String) (score : Int)
    (h : avail.headD false = false) :
    (submitScoreP avail cfg st uid game score).1 =
      .error .persistenceUnavailable ∧
    retryable .persistenceUnavailable = true ∧
    (submitScoreP avail cfg st uid game score).2 = 1 ∧
    ∀ st' : ArcadeState, (submitScoreP avail cfg st' uid game score).1 =
      (submitScoreP avail cfg st uid game score).1 := by
  unfold submitScoreP
  rw [h]
  exact ⟨rfl, rfl, rfl, fun st' => rfl⟩

theorem persistence_failure_reported_witness :
    ([false] : List Bool).headD false = false ∧
    (submitScoreP [false] cfg1 st1 1 "pac" 500).1 =
      .error .persistenceUnavailable :=
  ⟨by decide,
    (persistence_failure_reported [false] cfg1 st1 1 "pac" 500 (by decide)).1⟩

/-- C9: with no logged-in user, saveGameScore issues no request, changes no
client state, and only shows the login prompt notification. -/
theorem saveGameScore_requires_login (st : ClientState) (game : String)
    (score : Int) (fo : FetchOutcome) (ao : AuthOutcome)
    (h : st.currentUser = none) :
    saveGameScore st game score fo ao =
      (st, [], [⟨"Login to save your score!", "info"⟩]) := by
  unfold saveGameScore
  rw [h]

theorem saveGameScore_requires_login_witness :
    (⟨none, none⟩ : ClientState).currentUser = none ∧
    saveGameScore ⟨none, none⟩ "pac" 500 FetchOutcome.okResp
        (AuthOutcome.ok ⟨"diane", 1⟩) =
      (⟨none, none⟩, [], [⟨"Login to save your score!", "info"⟩]) :=
  ⟨rfl, saveGameScore_requires_login ⟨none, none⟩ "pac" 500
    FetchOutcome.okResp (AuthOutcome.ok ⟨"diane", 1⟩) rfl⟩

/-- C10: if any of the email, username or password fields is missing or
empty, handleRegister issues no request, does not reset the form, does not
switch views, and shows only the "All fields required!" error. -/
theorem handleRegister_requires_fields (form : RegisterForm) (o : RegOutcome)
    (h : falsy form.email = true ∨ falsy form.username = true ∨
      falsy form.password = true) :
    handleRegister form o =
      ⟨[], [⟨"All fields required!", "error"⟩], false, false⟩ := by
  unfold handleRegister
  have hc : (falsy form.email || falsy form.username ||
      falsy form.password) = true := by
    rcases h with h | h | h <;> simp [h]
  rw [if_pos hc]

theorem handleRegister_requires_fields_witness :
    falsy (some "") = true ∧
    handleRegister ⟨some "", some "bob", some "pw"⟩ RegOutcome.okResp =
      ⟨[], [⟨"All fields required!", "error"⟩], false, false⟩ :=
  ⟨rfl, handleRegister_requires_fields ⟨some "", some "bob", some "pw"⟩
    RegOutcome.okResp (Or.inl rfl)⟩
